import Mathlib

/-!
Shallow embedding of the sliding-window rate limiter in
src/app/utils/rate_limiter.py (class RateLimiter).

Timestamps are modelled as integers (the source uses wall-clock seconds
from time.time(); all the limiter does with them is subtract window
durations and compare, so exact integer arithmetic is faithful).
The state self.requests is a defaultdict(deque) mapping a client id
string to a deque of timestamps; we model it as an association list in
insertion order, which matches Python dict ordering.  The defaultdict
semantics (indexing with a missing key inserts an empty deque) is
modelled explicitly by ddGet.
-/

namespace RL


abbrev RequestLog := List Int
abbrev LimiterState := List (String × RequestLog)

/-- self.limits, in Python dict insertion order. -/
def limits : List (String × Nat) :=
  [("per_minute", 10), ("per_hour", 100), ("per_day", 1000)]

/-- self.windows, in Python dict insertion order. -/
def windows : List (String × Int) :=
  [("per_minute", 60), ("per_hour", 3600), ("per_day", 86400)]

/-- self.windows[limit_type] (lookup in the windows dict; total on the
keys actually used, which are exactly the keys of limits). -/
def windowSeconds (name : String) : Int :=
  ((windows.find? (fun p => p.1 == name)).map Prod.snd).getD 0

/-- Plain dict lookup in self.requests (no defaultdict insertion). -/
def lookupLog (s : LimiterState) (k : String) : Option RequestLog :=
  (s.find? (fun p => p.1 == k)).map Prod.snd

/-- The log of a client, reading a missing key as the empty log. -/
def logOf (s : LimiterState) (k : String) : RequestLog :=
  (lookupLog s k).getD []

/-- self.requests[client_id] on a defaultdict(deque): returns the stored
deque, inserting an empty one (at the end, per dict insertion order)
when the key is missing. -/
def ddGet (s : LimiterState) (k : String) : RequestLog × LimiterState :=
  match lookupLog s k with
  | some l => (l, s)
  | none => ([], s ++ [(k, [])])

/-- In-place mutation of the deque stored under a key: the state with
the log of that key replaced. -/
def setLog (s : LimiterState) (k : String) (l : RequestLog) : LimiterState :=
  s.map (fun p => if p.1 == k then (k, l) else p)

/-- while client_requests and client_requests[0] < cutoff_time:
client_requests.popleft() -/
def pruneOld (l : RequestLog) (cutoff : Int) : RequestLog :=
  l.dropWhile (fun t => t < cutoff)

/-- The for-loop of _check_and_update_limits over self.limits.items():
prune the log at each window cutoff in turn; on the first window whose
limit is reached, stop with the log as pruned so far and the verdict
false; if every window passes, return the fully pruned log and true. -/
def checkWindows (now : Int) : List (String × Nat) → RequestLog → RequestLog × Bool
  | [], l => (l, true)
  | (name, cnt) :: rest, l =>
      let cutoff := now - windowSeconds name
      let pruned := pruneOld l cutoff
      if cnt ≤ pruned.length then (pruned, false)
      else checkWindows now rest pruned

/-- max_stored_requests = max(self.limits.values()) -/
def maxStoredRequests : Nat := (limits.map Prod.snd).foldl Nat.max 0

/-- while len(client_requests) > max_stored_requests:
client_requests.popleft() — pops from the front until the length is at
most m, i.e. drops the first (length - m) entries. -/
def capLog (l : RequestLog) (m : Nat) : RequestLog :=
  l.drop (l.length - m)

/-- The body of _check_and_update_limits acting on one client log:
verdict together with the resulting log.  When every window passes, the
call time is appended and the log capped; on the first exceeded window
the log is left as pruned so far and nothing is appended. -/
def checkLog (l : RequestLog) (now : Int) : Bool × RequestLog :=
  match checkWindows now limits l with
  | (pruned, true) => (true, capLog (pruned ++ [now]) maxStoredRequests)
  | (pruned, false) => (false, pruned)

/-- _check_and_update_limits(client_id, current_time): defaultdict
access, window checks, and the write-back of the mutated deque. -/
def checkAndUpdateLimits (s : LimiterState) (clientId : String) (now : Int) :
    Bool × LimiterState :=
  let r := ddGet s clientId
  let c := checkLog r.1 now
  (c.1, setLog r.2 clientId c.2)

/-- Python truthiness of the optional api_key string: None and the
empty string are falsy. -/
def apiKeyTruthy : Option String → Bool
  | none => false
  | some s => !(s == "")

/-- client_id = f"{client_ip}:{api_key}" if api_key else client_ip -/
def clientIdOf (ip : String) (apiKey : Option String) : String :=
  if apiKeyTruthy apiKey then ip ++ ":" ++ apiKey.getD "" else ip

/-- is_allowed(client_ip, api_key): empty client_ip is falsy and is
rejected before any state access. -/
def is_allowed (s : LimiterState) (ip : String) (apiKey : Option String)
    (now : Int) : Bool × LimiterState :=
  if ip == "" then (false, s)
  else checkAndUpdateLimits s (clientIdOf ip apiKey) now

/-- One window entry of get_remaining_requests:
max(0, limit_count - count of entries with timestamp >= cutoff). -/
def remainingForWindow (l : RequestLog) (now : Int) (name : String) (cnt : Nat) : Int :=
  let cutoff := now - windowSeconds name
  let recent := (l.filter (fun t => cutoff ≤ t)).length
  max 0 ((cnt : Int) - recent)

/-- get_remaining_requests(client_ip, api_key): returns the mapping and
the successor state (the defaultdict access can insert an empty log). -/
def get_remaining_requests (s : LimiterState) (ip : String) (apiKey : Option String)
    (now : Int) : List (String × Int) × LimiterState :=
  if ip == "" then ([], s)
  else
    let r := ddGet s (clientIdOf ip apiKey)
    (limits.map (fun p => (p.1, remainingForWindow r.1 now p.1 p.2)), r.2)

/-- One window entry of get_reset_times: when the log is non-empty,
scan for the first entry at or after the cutoff; the Python test
`if oldest_in_window:` is truthiness, so a found entry equal to 0
falls back to current_time exactly like no entry at all. -/
def resetForWindow (l : RequestLog) (now : Int) (dur : Int) : Int :=
  if l.isEmpty then now
  else
    match l.find? (fun t => now - dur ≤ t) with
    | some t => if t != 0 then t + dur else now
    | none => now

/-- get_reset_times(client_ip, api_key): returns the mapping over
self.windows.items() and the successor state. -/
def get_reset_times (s : LimiterState) (ip : String) (apiKey : Option String)
    (now : Int) : List (String × Int) × LimiterState :=
  if ip == "" then ([], s)
  else
    let r := ddGet s (clientIdOf ip apiKey)
    (windows.map (fun p => (p.1, resetForWindow r.1 now p.2)), r.2)

/-- cleanup_old_entries(max_age_hours): prune each client log at
cutoff = now - max_age_hours*3600, then delete the clients whose log
came out empty (deletion preserves the order of the remaining keys). -/
def cleanup_old_entries (s : LimiterState) (now : Int) (maxAgeHours : Int) :
    LimiterState :=
  let cutoff := now - maxAgeHours * 3600
  (s.map (fun p => (p.1, pruneOld p.2 cutoff))).filter (fun p => !p.2.isEmpty)

/-- One externally invokable operation of the limiter, with its call
time as an explicit argument. -/
inductive Op where
  | allowOp (ip : String) (apiKey : Option String) (now : Int)
  | remainingOp (ip : String) (apiKey : Option String) (now : Int)
  | resetOp (ip : String) (apiKey : Option String) (now : Int)
  | cleanupOp (now : Int) (maxAgeHours : Int)

/-- The call time of an operation. -/
def opTime : Op → Int
  | .allowOp _ _ t => t
  | .remainingOp _ _ t => t
  | .resetOp _ _ t => t
  | .cleanupOp t _ => t

/-- State effect of one operation. -/
def applyOp (s : LimiterState) : Op → LimiterState
  | .allowOp ip k t => (is_allowed s ip k t).2
  | .remainingOp ip k t => (get_remaining_requests s ip k t).2
  | .resetOp ip k t => (get_reset_times s ip k t).2
  | .cleanupOp t a => cleanup_old_entries s t a

/-- Run a sequence of operations from a state. -/
def runOps (s : LimiterState) : List Op → LimiterState
  | [] => s
  | op :: rest => runOps (applyOp s op) rest

/-- Run a sequence of is_allowed calls for one client, collecting the
verdicts and the final state. -/
def runCalls (s : LimiterState) (ip : String) (apiKey : Option String) :
    List Int → List Bool × LimiterState
  | [] => ([], s)
  | t :: ts =>
      let r := is_allowed s ip apiKey t
      let rest := runCalls r.2 ip apiKey ts
      (r.1 :: rest.1, rest.2)

/-! ### Basic facts about the fixed configuration -/

lemma windowSeconds_minute : windowSeconds "per_minute" = 60 := by decide

lemma windowSeconds_hour : windowSeconds "per_hour" = 3600 := by decide

lemma windowSeconds_day : windowSeconds "per_day" = 86400 := by decide

lemma maxStoredRequests_eq : maxStoredRequests = 1000 := by decide

/-! ### Pruning -/

lemma pruneOld_eq_self (l : RequestLog) (c : Int) (h : ∀ x ∈ l, c ≤ x) :
    pruneOld l c = l := by
  cases l with
  | nil => rfl
  | cons a t =>
      have ha : ¬ (a < c) := not_lt.2 (h a (List.mem_cons_self a t))
      simp [pruneOld, List.dropWhile_cons, ha]

lemma pruneOld_length_le (l : RequestLog) (c : Int) :
    (pruneOld l c).length ≤ l.length :=
  (List.dropWhile_sublist _).length_le

lemma pruneOld_sorted {l : RequestLog} (c : Int) (h : List.Sorted (· ≤ ·) l) :
    pruneOld l c = l.filter (fun t => c ≤ t) := by
  induction l with
  | nil => rfl
  | cons a t ih =>
      rw [List.sorted_cons] at h
      by_cases ha : a < c
      · have h1 : ¬ (c ≤ a) := not_le.2 ha
        simp [pruneOld, List.dropWhile_cons, List.filter_cons, ha, h1]
        exact ih h.2
      · have h1 : c ≤ a := not_lt.1 ha
        have h2 : t.filter (fun x => decide (c ≤ x)) = t :=
          List.filter_eq_self.2 (fun x hx => by
            simpa using le_trans h1 (h.1 x hx))
        simp [pruneOld, List.dropWhile_cons, List.filter_cons, ha, h1]
        simpa using h2.symm

/-! ### State lookup, defaultdict access, write-back -/

lemma ddGet_fst (s : LimiterState) (k : String) : (ddGet s k).1 = logOf s k := by
  unfold ddGet logOf
  cases h : lookupLog s k <;> simp [h]

lemma logOf_pad (k c : String) : logOf [(k, ([] : RequestLog))] c = [] := by
  unfold logOf lookupLog
  by_cases h : k = c
  · simp [List.find?, h]
  · have hb : (k == c) = false := by simpa using h
    simp [List.find?, hb]

lemma logOf_append_new {s : LimiterState} {k : String} (c : String) :
    logOf (s ++ [(k, [])]) c = logOf s c := by
  unfold logOf lookupLog
  rw [List.find?_append]
  cases hc : s.find? (fun p => p.1 == c) with
  | some q => simp
  | none =>
      simp only [Option.none_or]
      have := logOf_pad k c
      unfold logOf lookupLog at this
      rw [this]
      rfl

lemma logOf_ddGet (s : LimiterState) (k c : String) :
    logOf (ddGet s k).2 c = logOf s c := by
  unfold ddGet
  cases h : lookupLog s k with
  | some l => rfl
  | none => exact logOf_append_new c

lemma mem_ddGet {p : String × RequestLog} {s : LimiterState} {k : String}
    (h : p ∈ (ddGet s k).2) : p ∈ s ∨ p = (k, []) := by
  unfold ddGet at h
  cases hl : lookupLog s k with
  | some l => rw [hl] at h; exact Or.inl h
  | none =>
      rw [hl] at h
      rcases List.mem_append.1 h with h1 | h1
      · exact Or.inl h1
      · exact Or.inr (by simpa using h1)

lemma ddGet_mem_self {s : LimiterState} {k : String} (p : String × RequestLog)
    (hp : p ∈ s) : p ∈ (ddGet s k).2 := by
  unfold ddGet
  cases hl : lookupLog s k with
  | some l => exact hp
  | none => exact List.mem_append.2 (Or.inl hp)

lemma lookupLog_setLog_isSome {k : String} :
    ∀ (s : LimiterState), (lookupLog s k).isSome → ∀ (l : RequestLog),
      lookupLog (setLog s k l) k = some l := by
  intro s
  induction s with
  | nil => intro h; simp [lookupLog] at h
  | cons q t ih =>
      intro h l
      by_cases hq : q.1 = k
      · have hmap : setLog (q :: t) k l = (k, l) :: setLog t k l := by
          simp [setLog, hq]
        rw [hmap]
        unfold lookupLog
        rw [List.find?_cons_of_pos _ (by simp)]
        rfl
      · have hb : (q.1 == k) = false := by simpa using hq
        have hmap : setLog (q :: t) k l = q :: setLog t k l := by
          simp [setLog, hb, hq]
        rw [hmap]
        unfold lookupLog
        rw [List.find?_cons_of_neg _ (by simp [hb])]
        have ht : (lookupLog t k).isSome := by
          unfold lookupLog at h ⊢
          rw [List.find?_cons_of_neg _ (by simp [hb])] at h
          exact h
        have hres := ih ht l
        unfold lookupLog at hres
        exact hres

lemma lookupLog_ddGet_isSome (s : LimiterState) (k : String) :
    (lookupLog (ddGet s k).2 k).isSome := by
  unfold ddGet
  cases hl : lookupLog s k with
  | some l => simp [hl]
  | none =>
      have hf : s.find? (fun p => p.1 == k) = none := by
        unfold lookupLog at hl
        exact Option.map_eq_none'.1 hl
      show (lookupLog (s ++ [(k, [])]) k).isSome
      unfold lookupLog
      rw [List.find?_append, hf]
      simp [List.find?]

lemma logOf_setLog_ddGet (s : LimiterState) (k : String) (l : RequestLog) :
    logOf (setLog (ddGet s k).2 k l) k = l := by
  unfold logOf
  rw [lookupLog_setLog_isSome _ (lookupLog_ddGet_isSome s k) l]
  rfl

lemma mem_setLog {p : String × RequestLog} {s : LimiterState} {k : String} {l : RequestLog}
    (h : p ∈ setLog s k l) : p = (k, l) ∨ p ∈ s := by
  unfold setLog at h
  obtain ⟨q, hq, he⟩ := List.mem_map.1 h
  by_cases h1 : q.1 = k
  · left; rw [← he]; simp [h1]
  · right
    rw [← he, if_neg (by simpa using h1)]
    exact hq

lemma logOf_mem {s : LimiterState} {k : String} :
    logOf s k = [] ∨ (k, logOf s k) ∈ s := by
  unfold logOf lookupLog
  cases hf : s.find? (fun p => p.1 == k) with
  | none => simp
  | some q =>
      right
      have hm := List.mem_of_find?_eq_some hf
      have hp := List.find?_some hf
      have : q.1 = k := by simpa using hp
      simpa [← this] using hm

/-! ### capLog and checkWindows bounds -/

lemma capLog_length_le (l : RequestLog) (m : Nat) : (capLog l m).length ≤ m := by
  simp [capLog]
  omega

lemma capLog_eq_self {l : RequestLog} {m : Nat} (h : l.length ≤ m) : capLog l m = l := by
  simp [capLog, Nat.sub_eq_zero_of_le h]

lemma checkWindows_fst_length_le (now : Int) :
    ∀ (ws : List (String × Nat)) (l : RequestLog),
      ((checkWindows now ws l).1).length ≤ l.length := by
  intro ws
  induction ws with
  | nil => intro l; simp [checkWindows]
  | cons w rest ih =>
      intro l
      obtain ⟨name, cnt⟩ := w
      simp only [checkWindows]
      by_cases hc : cnt ≤ (pruneOld l (now - windowSeconds name)).length
      · simpa [hc] using pruneOld_length_le l _
      · simpa [hc] using le_trans (ih _) (pruneOld_length_le l _)

lemma checkLog_snd_length (l : RequestLog) (now : Int) :
    (checkLog l now).2.length ≤ max l.length 1000 := by
  have hw := checkWindows_fst_length_le now limits l
  rcases hcw : checkWindows now limits l with ⟨l1, b⟩
  rw [hcw] at hw
  cases b with
  | true =>
      have hcap := capLog_length_le (l1 ++ [now]) maxStoredRequests
      rw [maxStoredRequests_eq] at hcap
      simp only [checkLog, hcw]
      exact le_trans hcap (le_max_right _ _)
  | false =>
      simp only [checkLog, hcw]
      exact le_trans hw (le_max_left _ _)

/-! ### The window check on logs whose entries all lie in every window -/

lemma checkWindows_all_pass {l : RequestLog} {now : Int}
    (h : ∀ x ∈ l, now - 60 ≤ x) (hlen : l.length < 10) :
    checkWindows now limits l = (l, true) := by
  have h60 : pruneOld l (now - 60) = l := pruneOld_eq_self l (now - 60) h
  have h3600 : pruneOld l (now - 3600) = l :=
    pruneOld_eq_self l (now - 3600) (fun x hx => by have := h x hx; omega)
  have h86400 : pruneOld l (now - 86400) = l :=
    pruneOld_eq_self l (now - 86400) (fun x hx => by have := h x hx; omega)
  simp only [limits, checkWindows, windowSeconds_minute, windowSeconds_hour,
    windowSeconds_day, h60, h3600, h86400]
  rw [if_neg (by omega), if_neg (by omega), if_neg (by omega)]

lemma checkLog_admit {l : RequestLog} {now : Int}
    (h : ∀ x ∈ l, now - 60 ≤ x) (hlen : l.length < 10) :
    checkLog l now = (true, l ++ [now]) := by
  have hw := checkWindows_all_pass h hlen
  have hcap : capLog (l ++ [now]) maxStoredRequests = l ++ [now] := by
    apply capLog_eq_self
    rw [maxStoredRequests_eq]
    simp only [List.length_append, List.length_cons, List.length_nil]
    omega
  simp only [checkLog, hw, hcap]

lemma checkLog_deny_minute {l : RequestLog} {now : Int}
    (h : ∀ x ∈ l, now - 60 ≤ x) (hlen : 10 ≤ l.length) :
    checkLog l now = (false, l) := by
  have h60 : pruneOld l (now - 60) = l := pruneOld_eq_self l (now - 60) h
  have hw : checkWindows now limits l = (l, false) := by
    simp only [limits, checkWindows, windowSeconds_minute, h60]
    rw [if_pos hlen]
  simp only [checkLog, hw]

/-! ### Unfolding is_allowed -/

lemma is_allowed_eq (s : LimiterState) (ip : String) (key : Option String)
    (now : Int) (hip : ip ≠ "") :
    is_allowed s ip key now =
      ((checkLog (logOf s (clientIdOf ip key)) now).1,
        setLog (ddGet s (clientIdOf ip key)).2 (clientIdOf ip key)
          (checkLog (logOf s (clientIdOf ip key)) now).2) := by
  have hb : (ip == "") = false := beq_eq_false_iff_ne.2 hip
  simp only [is_allowed, hb, Bool.false_eq_true, if_false, checkAndUpdateLimits, ddGet_fst]

lemma is_allowed_fst (s : LimiterState) (ip : String) (key : Option String)
    (now : Int) (hip : ip ≠ "") :
    (is_allowed s ip key now).1 = (checkLog (logOf s (clientIdOf ip key)) now).1 := by
  rw [is_allowed_eq s ip key now hip]

lemma is_allowed_logOf (s : LimiterState) (ip : String) (key : Option String)
    (now : Int) (hip : ip ≠ "") :
    logOf (is_allowed s ip key now).2 (clientIdOf ip key) =
      (checkLog (logOf s (clientIdOf ip key)) now).2 := by
  rw [is_allowed_eq s ip key now hip]
  exact logOf_setLog_ddGet s (clientIdOf ip key) _

lemma is_allowed_fst_congr {s1 s2 : LimiterState}
    (h : ∀ c, logOf s1 c = logOf s2 c) (ip : String) (key : Option String)
    (now : Int) :
    (is_allowed s1 ip key now).1 = (is_allowed s2 ip key now).1 := by
  by_cases hip : ip = ""
  · subst hip; simp [is_allowed]
  · rw [is_allowed_fst s1 ip key now hip, is_allowed_fst s2 ip key now hip, h]

/-! ### Query successor states -/

lemma get_remaining_snd (s : LimiterState) (ip : String) (key : Option String)
    (now : Int) (hip : ip ≠ "") :
    (get_remaining_requests s ip key now).2 = (ddGet s (clientIdOf ip key)).2 := by
  have hb : (ip == "") = false := beq_eq_false_iff_ne.2 hip
  simp only [get_remaining_requests, hb, Bool.false_eq_true, if_false]

lemma get_reset_snd (s : LimiterState) (ip : String) (key : Option String)
    (now : Int) (hip : ip ≠ "") :
    (get_reset_times s ip key now).2 = (ddGet s (clientIdOf ip key)).2 := by
  have hb : (ip == "") = false := beq_eq_false_iff_ne.2 hip
  simp only [get_reset_times, hb, Bool.false_eq_true, if_false]

lemma get_remaining_logOf (s : LimiterState) (ip : String) (key : Option String)
    (now : Int) (c : String) :
    logOf (get_remaining_requests s ip key now).2 c = logOf s c := by
  by_cases hip : ip = ""
  · subst hip; rfl
  · rw [get_remaining_snd s ip key now hip]
    exact logOf_ddGet s (clientIdOf ip key) c

lemma get_reset_logOf (s : LimiterState) (ip : String) (key : Option String)
    (now : Int) (c : String) :
    logOf (get_reset_times s ip key now).2 c = logOf s c := by
  by_cases hip : ip = ""
  · subst hip; rfl
  · rw [get_reset_snd s ip key now hip]
    exact logOf_ddGet s (clientIdOf ip key) c

/-! ### Sequences of calls -/

lemma runCalls_append (s : LimiterState) (ip : String) (key : Option String)
    (u v : List Int) :
    runCalls s ip key (u ++ v) =
      ((runCalls s ip key u).1 ++ (runCalls (runCalls s ip key u).2 ip key v).1,
        (runCalls (runCalls s ip key u).2 ip key v).2) := by
  induction u generalizing s with
  | nil => simp [runCalls]
  | cons t ts ih => simp [runCalls, ih]

lemma runCalls_all_admit (ip : String) (key : Option String) (hip : ip ≠ "")
    (t0 : Int) :
    ∀ (ts : List Int) (s : LimiterState),
      (∀ x ∈ logOf s (clientIdOf ip key), t0 ≤ x) →
      (∀ t ∈ ts, t0 ≤ t ∧ t ≤ t0 + 60) →
      (logOf s (clientIdOf ip key)).length + ts.length ≤ 10 →
      (runCalls s ip key ts).1 = List.replicate ts.length true ∧
      logOf (runCalls s ip key ts).2 (clientIdOf ip key) =
        logOf s (clientIdOf ip key) ++ ts := by
  intro ts
  induction ts with
  | nil => intro s h1 h2 h3; simp [runCalls]
  | cons t ts ih =>
      intro s h1 h2 h3
      have hts := fun x hx => h2 x (List.mem_cons_of_mem t hx)
      obtain ⟨ht1, ht2⟩ := h2 t (List.mem_cons_self t ts)
      have hlen : (logOf s (clientIdOf ip key)).length < 10 := by
        simp only [List.length_cons] at h3
        omega
      have hadmit : checkLog (logOf s (clientIdOf ip key)) t =
          (true, logOf s (clientIdOf ip key) ++ [t]) := by
        apply checkLog_admit
        · intro x hx
          have := h1 x hx
          omega
        · exact hlen
      have hfst : (is_allowed s ip key t).1 = true := by
        rw [is_allowed_fst s ip key t hip, hadmit]
      have hlog : logOf (is_allowed s ip key t).2 (clientIdOf ip key) =
          logOf s (clientIdOf ip key) ++ [t] := by
        rw [is_allowed_logOf s ip key t hip, hadmit]
      obtain ⟨ih1, ih2⟩ := ih (is_allowed s ip key t).2
        (by
          rw [hlog]
          intro x hx
          rcases List.mem_append.1 hx with hx1 | hx1
          · exact h1 x hx1
          · simp only [List.mem_singleton] at hx1
            omega)
        hts
        (by
          rw [hlog]
          simp only [List.length_append, List.length_singleton,
            List.length_cons, List.length_nil] at h3 ⊢
          omega)
      refine ⟨?_, ?_⟩
      · simp only [runCalls, hfst, ih1, List.length_cons, List.replicate_succ]
      · simp only [runCalls, ih2, hlog, List.append_assoc, List.singleton_append]

/-! ### Claim theorems -/

/-- Claim C9: with an empty (falsy) client_ip, get_remaining_requests and
get_reset_times both return the empty mapping — no per-window keys at
all — and leave the limiter state unchanged, mirroring is_allowed
returning false without mutation on the same input. -/
theorem empty_ip_queries (s : LimiterState) (key : Option String) (now : Int) :
    get_remaining_requests s "" key now = ([], s) ∧
    get_reset_times s "" key now = ([], s) ∧
    is_allowed s "" key now = (false, s) :=
  ⟨rfl, rfl, rfl⟩

/-- Claim C10: an empty-string api_key is falsy, so it derives the same
client id as passing no api_key at all — the bare client_ip — and every
operation returns the same result and successor state on the two inputs. -/
theorem empty_api_key_equiv (s : LimiterState) (ip : String) (now : Int) :
    clientIdOf ip (some "") = clientIdOf ip none ∧
    clientIdOf ip (some "") = ip ∧
    is_allowed s ip (some "") now = is_allowed s ip none now ∧
    get_remaining_requests s ip (some "") now =
      get_remaining_requests s ip none now ∧
    get_reset_times s ip (some "") now = get_reset_times s ip none now := by
  have hc : clientIdOf ip (some "") = ip := by simp [clientIdOf, apiKeyTruthy]
  have hc2 : clientIdOf ip none = ip := by simp [clientIdOf, apiKeyTruthy]
  refine ⟨hc.trans hc2.symm, hc, ?_, ?_, ?_⟩ <;>
    simp only [is_allowed, get_remaining_requests, get_reset_times, hc, hc2]

/-- Claim C1 counterexample: querying the remaining quota of a never-seen
client inserts that client key (with an empty log) into the state via the
defaultdict access, so the set of client keys is not preserved by the
query, contradicting the claim at the empty state. -/
theorem query_mutates_keyset :
    (get_remaining_requests [] "a" none 0).2 = [("a", [])] ∧
    ([] : LimiterState) ≠ [("a", [])] :=
  ⟨by decide, by decide⟩

/-- Claim C1 (amended): get_remaining_requests and get_reset_times never
change the log of any client; the only state mutation either can make is
inserting the queried key with an empty log when it was absent (a
defaultdict artifact).  Every entry of the old state is kept, any entry
of the new state is an old entry or has an empty log, and the boolean
outcome of any subsequent is_allowed call is unchanged — hence any
number of interleaved queries cannot change the outcome of a later
is_allowed call. -/
theorem queries_read_only (s : LimiterState) (ip : String) (key : Option String)
    (now : Int) :
    (∀ c, logOf (get_remaining_requests s ip key now).2 c = logOf s c) ∧
    (∀ c, logOf (get_reset_times s ip key now).2 c = logOf s c) ∧
    (∀ p, p ∈ s → p ∈ (get_remaining_requests s ip key now).2) ∧
    (∀ p, p ∈ (get_remaining_requests s ip key now).2 → p ∈ s ∨ p.2 = []) ∧
    (∀ p, p ∈ s → p ∈ (get_reset_times s ip key now).2) ∧
    (∀ p, p ∈ (get_reset_times s ip key now).2 → p ∈ s ∨ p.2 = []) ∧
    (∀ ip2 key2 now2,
      (is_allowed (get_remaining_requests s ip key now).2 ip2 key2 now2).1 =
        (is_allowed s ip2 key2 now2).1 ∧
      (is_allowed (get_reset_times s ip key now).2 ip2 key2 now2).1 =
        (is_allowed s ip2 key2 now2).1) := by
  by_cases hip : ip = ""
  · subst hip
    exact ⟨fun c => rfl, fun c => rfl, fun p hp => hp, fun p hp => Or.inl hp,
      fun p hp => hp, fun p hp => Or.inl hp, fun ip2 key2 now2 => ⟨rfl, rfl⟩⟩
  · refine ⟨fun c => get_remaining_logOf s ip key now c,
      fun c => get_reset_logOf s ip key now c, ?_, ?_, ?_, ?_, ?_⟩
    · intro p hp
      rw [get_remaining_snd s ip key now hip]
      exact ddGet_mem_self p hp
    · intro p hp
      rw [get_remaining_snd s ip key now hip] at hp
      rcases mem_ddGet hp with h1 | h1
      · exact Or.inl h1
      · right; rw [h1]
    · intro p hp
      rw [get_reset_snd s ip key now hip]
      exact ddGet_mem_self p hp
    · intro p hp
      rw [get_reset_snd s ip key now hip] at hp
      rcases mem_ddGet hp with h1 | h1
      · exact Or.inl h1
      · right; rw [h1]
    · intro ip2 key2 now2
      exact ⟨is_allowed_fst_congr (fun c => get_remaining_logOf s ip key now c)
          ip2 key2 now2,
        is_allowed_fst_congr (fun c => get_reset_logOf s ip key now c)
          ip2 key2 now2⟩

/-- Claim C4: when a window is at or over its limit after pruning, the
window loop stops at that window with verdict false and state equal to
the log pruned at that window only; the windows behind it are neither
pruned nor checked (the result is independent of them), and on a false
verdict checkLog records no timestamp — the resulting log is exactly
the loop result. -/
theorem deny_short_circuit (l : RequestLog) (now : Int) (name : String)
    (cnt : Nat) (rest rest2 : List (String × Nat))
    (h : cnt ≤ (pruneOld l (now - windowSeconds name)).length) :
    checkWindows now ((name, cnt) :: rest) l =
      (pruneOld l (now - windowSeconds name), false) ∧
    checkWindows now ((name, cnt) :: rest) l =
      checkWindows now ((name, cnt) :: rest2) l ∧
    (∀ l2, (checkWindows now limits l2).2 = false →
      checkLog l2 now = (false, (checkWindows now limits l2).1)) := by
  have he : ∀ r : List (String × Nat), checkWindows now ((name, cnt) :: r) l =
      (pruneOld l (now - windowSeconds name), false) := by
    intro r
    simp only [checkWindows]
    rw [if_pos h]
  refine ⟨he rest, (he rest).trans (he rest2).symm, ?_⟩
  intro l2 h2
  rcases hcw : checkWindows now limits l2 with ⟨l3, b⟩
  rw [hcw] at h2
  simp only at h2
  subst h2
  simp [checkLog, hcw]

/-- Witness for C4 at a concrete input: a log of ten entries exactly at
the per-minute cutoff denies immediately with the log unchanged by the
later windows. -/
theorem deny_short_circuit_witness :
    checkWindows 0 (("per_minute", 10) :: [("per_hour", 100), ("per_day", 1000)])
        (List.replicate 10 (-60)) =
      (pruneOld (List.replicate 10 (-60)) (0 - windowSeconds "per_minute"), false) :=
  (deny_short_circuit (List.replicate 10 (-60)) 0 "per_minute" 10
    [("per_hour", 100), ("per_day", 1000)] [] (by decide)).1

/-- Claim C2 counterexample: instantiate the claim at the per_hour window
(max_count = 100).  One hundred calls all at the same instant — hence all
within every window duration of the first — are not all admitted: the
per-minute window denies every call after the tenth. -/
theorem rapid_hour_burst_denied :
    (runCalls [] "a" none (List.replicate 100 0)).1 ≠ List.replicate 100 true := by
  decide

/-- Claim C2 (amended): the stated property holds for the per-minute
window, whose max_count (10) is the least over all windows: from an
empty log, ten is_allowed calls all within 60 seconds after the first
are all admitted, and an immediately following eleventh call within the
same 60-second span is denied.  For the larger windows the claim fails
as stated, since a burst of max_count calls inside 60 seconds is cut
off by the per-minute limit after ten admissions. -/
theorem rapid_minute_admits_then_denies (ip : String) (key : Option String)
    (t0 tl : Int) (mid : List Int) (hip : ip ≠ "") (hlen : mid.length = 9)
    (hb : ∀ t ∈ mid ++ [tl], t0 ≤ t ∧ t ≤ t0 + 60) :
    (runCalls [] ip key ((t0 :: mid) ++ [tl])).1 =
      List.replicate 10 true ++ [false] := by
  have hcid : logOf ([] : LimiterState) (clientIdOf ip key) = [] := rfl
  have hball : ∀ t ∈ t0 :: mid, t0 ≤ t ∧ t ≤ t0 + 60 := by
    intro t ht
    rcases List.mem_cons.1 ht with rfl | ht2
    · exact ⟨le_refl _, by omega⟩
    · exact hb t (List.mem_append.2 (Or.inl ht2))
  obtain ⟨h1, h2⟩ := runCalls_all_admit ip key hip t0 (t0 :: mid) []
    (by rw [hcid]; intro x hx; cases hx)
    hball
    (by rw [hcid]; simp [hlen])
  have hlen10 : (t0 :: mid).length = 10 := by simp [hlen]
  have hlast : (runCalls (runCalls [] ip key (t0 :: mid)).2 ip key [tl]).1 =
      [false] := by
    have hloglen : logOf (runCalls [] ip key (t0 :: mid)).2 (clientIdOf ip key) =
        t0 :: mid := by
      rw [h2, hcid]
      simp
    have hdeny : checkLog (t0 :: mid) tl = (false, t0 :: mid) := by
      apply checkLog_deny_minute
      · intro x hx
        obtain ⟨htl1, htl2⟩ :=
          hb tl (List.mem_append.2 (Or.inr (List.mem_singleton_self tl)))
        rcases List.mem_cons.1 hx with rfl | hx2
        · omega
        · obtain ⟨ha1, ha2⟩ := hb x (List.mem_append.2 (Or.inl hx2))
          omega
      · simp [hlen]
    have hgen : ∀ s2 : LimiterState, logOf s2 (clientIdOf ip key) = t0 :: mid →
        (runCalls s2 ip key [tl]).1 = [false] := by
      intro s2 hs2
      simp only [runCalls]
      rw [is_allowed_fst s2 ip key tl hip, hs2, hdeny]
    exact hgen (runCalls [] ip key (t0 :: mid)).2 hloglen
  rw [runCalls_append, h1, hlen10, hlast]

/-- Witness for C2 at a concrete input: ten calls at time 0 followed by an
eleventh at time 0 — ten admissions, then a denial. -/
theorem rapid_minute_witness :
    (runCalls [] "a" none (((0 : Int) :: List.replicate 9 0) ++ [0])).1 =
      List.replicate 10 true ++ [false] :=
  rapid_minute_admits_then_denies "a" none 0 0 (List.replicate 9 0)
    (by decide) (by decide) (by decide)

/-- Claim C3: window boundaries include their lower bound.  A log holding
exactly max_count entries at timestamp now - 60 (the per-minute cutoff)
loses nothing to pruning (only strictly older entries are dropped), the
call at time now is denied with the state unchanged, and
get_remaining_requests counts all ten boundary entries in every window,
reporting 0 remaining for per_minute. -/
theorem boundary_inclusive (t : Int) (ip : String) (key : Option String)
    (hip : ip ≠ "") :
    pruneOld (List.replicate 10 (t - 60)) (t - 60) = List.replicate 10 (t - 60) ∧
    is_allowed [(clientIdOf ip key, List.replicate 10 (t - 60))] ip key t =
      (false, [(clientIdOf ip key, List.replicate 10 (t - 60))]) ∧
    (get_remaining_requests [(clientIdOf ip key, List.replicate 10 (t - 60))]
        ip key t).1 =
      [("per_minute", 0), ("per_hour", 90), ("per_day", 990)] := by
  have hall : ∀ x ∈ List.replicate 10 (t - 60), t - 60 ≤ x := by
    intro x hx
    rw [List.eq_of_mem_replicate hx]
  have hprune : pruneOld (List.replicate 10 (t - 60)) (t - 60) =
      List.replicate 10 (t - 60) :=
    pruneOld_eq_self _ _ hall
  have hlook : lookupLog [(clientIdOf ip key, List.replicate 10 (t - 60))]
      (clientIdOf ip key) = some (List.replicate 10 (t - 60)) := by
    unfold lookupLog
    rw [List.find?_cons_of_pos _ (by simp)]
    rfl
  have hlog : logOf [(clientIdOf ip key, List.replicate 10 (t - 60))]
      (clientIdOf ip key) = List.replicate 10 (t - 60) := by
    unfold logOf
    rw [hlook]
    rfl
  have hdeny : checkLog (List.replicate 10 (t - 60)) t =
      (false, List.replicate 10 (t - 60)) :=
    checkLog_deny_minute hall (by simp)
  have hdd : ddGet [(clientIdOf ip key, List.replicate 10 (t - 60))]
      (clientIdOf ip key) =
      (List.replicate 10 (t - 60), [(clientIdOf ip key, List.replicate 10 (t - 60))]) := by
    unfold ddGet
    rw [hlook]
  have hset : setLog [(clientIdOf ip key, List.replicate 10 (t - 60))]
      (clientIdOf ip key) (List.replicate 10 (t - 60)) =
      [(clientIdOf ip key, List.replicate 10 (t - 60))] := by
    simp [setLog]
  refine ⟨hprune, ?_, ?_⟩
  · rw [is_allowed_eq _ ip key t hip, hlog, hdeny, hdd, hset]
  · have hb : (ip == "") = false := beq_eq_false_iff_ne.2 hip
    have hfilter : ∀ d : Int, 60 ≤ d →
        (List.replicate 10 (t - 60)).filter (fun x => t - d ≤ x) =
          List.replicate 10 (t - 60) := by
      intro d hd
      apply List.filter_eq_self.2
      intro a ha
      rw [List.eq_of_mem_replicate ha]
      simp only [decide_eq_true_eq]
      omega
    simp only [get_remaining_requests, hb, Bool.false_eq_true, if_false, hdd,
      limits, List.map_cons, List.map_nil, remainingForWindow,
      windowSeconds_minute, windowSeconds_hour, windowSeconds_day,
      hfilter 60 (by omega), hfilter 3600 (by omega), hfilter 86400 (by omega),
      List.length_replicate]
    norm_num

/-! ### Finding the earliest in-window entry -/

lemma find_eq_head_filter {α : Type} (p : α → Bool) (l : List α) :
    l.find? p = (l.filter p).head? := by
  induction l with
  | nil => rfl
  | cons a t ih =>
      by_cases hp : p a
      · rw [List.find?_cons_of_pos _ hp, List.filter_cons_of_pos hp]
        rfl
      · rw [List.find?_cons_of_neg _ hp, List.filter_cons_of_neg hp, ih]

lemma sorted_filter_head_le {l : RequestLog} (p : Int → Bool)
    (h : List.Sorted (· ≤ ·) l) {e : Int}
    (he : (l.filter p).head? = some e) : ∀ x ∈ l.filter p, e ≤ x := by
  have hs : List.Sorted (· ≤ ·) (l.filter p) := h.filter p
  cases hf : l.filter p with
  | nil => rw [hf] at he; simp at he
  | cons a u =>
      rw [hf] at he hs
      have hae : a = e := by simpa using he
      subst hae
      rw [List.sorted_cons] at hs
      intro x hx
      rcases List.mem_cons.1 hx with rfl | hx2
      · exact le_refl _
      · exact hs.1 x hx2

/-- Claim C5 counterexample: with log [0] for client "a" and now = 50, the
entry 0 lies inside every window (0 ≥ 50 - 60 = -10), so the claim
predicts a per-minute reset time of 0 + 60 = 60; the code instead
returns now = 50 for every window, because the Python truthiness test
`if oldest_in_window:` treats the found timestamp 0 like no entry. -/
theorem reset_time_zero_entry :
    ((50 : Int) - 60 ≤ 0) ∧
    (get_reset_times [("a", [(0 : Int)])] "a" none 50).1 =
      [("per_minute", 50), ("per_hour", 50), ("per_day", 50)] ∧
    (50 : Int) ≠ 0 + 60 :=
  ⟨by decide, by decide, by decide⟩

/-- Claim C5 (amended): for a client whose (non-decreasing) log is l the
reset-times mapping is windows.map of resetForWindow, and for each
window: when no log entry lies in the window the reset time is now; when
the earliest in-window entry e is nonzero the reset time is
e + duration; and when the earliest in-window entry is exactly 0 the
reset time falls back to now (a Python truthiness artifact, the only
deviation from the claim). -/
theorem reset_times_spec (l : RequestLog) (now dur : Int)
    (hs : List.Sorted (· ≤ ·) l) :
    (l.filter (fun x => now - dur ≤ x) = [] → resetForWindow l now dur = now) ∧
    (∀ e, e ∈ l → now - dur ≤ e → (∀ x ∈ l, now - dur ≤ x → e ≤ x) → e ≠ 0 →
      resetForWindow l now dur = e + dur) ∧
    ((l.filter (fun x => now - dur ≤ x)).head? = some 0 →
      resetForWindow l now dur = now) ∧
    (∀ (s : LimiterState) (ip : String) (key : Option String), ip ≠ "" →
      logOf s (clientIdOf ip key) = l →
      (get_reset_times s ip key now).1 =
        windows.map (fun p => (p.1, resetForWindow l now p.2))) := by
  refine ⟨?_, ?_, ?_, ?_⟩
  · intro hfe
    unfold resetForWindow
    by_cases hl : l.isEmpty
    · rw [if_pos hl]
    · rw [if_neg hl, find_eq_head_filter, hfe]
      rfl
  · intro e he hin hmin hne
    have hef : e ∈ l.filter (fun x => now - dur ≤ x) :=
      List.mem_filter.2 ⟨he, by simpa using hin⟩
    have hl : l.isEmpty = false := by
      cases l with
      | nil => cases he
      | cons a u => rfl
    cases hf : l.filter (fun x => now - dur ≤ x) with
    | nil => rw [hf] at hef; cases hef
    | cons a u =>
        have hhead : (l.filter (fun x => now - dur ≤ x)).head? = some a := by
          rw [hf]
          rfl
        have hmin2 := sorted_filter_head_le (fun x => decide (now - dur ≤ x)) hs hhead
        have haf : a ∈ l.filter (fun x => now - dur ≤ x) := by
          rw [hf]
          exact List.mem_cons_self a u
        have ham := List.mem_filter.1 haf
        have hle1 : e ≤ a := hmin a ham.1 (by simpa using ham.2)
        have hle2 : a ≤ e := hmin2 e hef
        have hae : a = e := le_antisymm hle2 hle1
        unfold resetForWindow
        rw [if_neg (by simp [hl]), find_eq_head_filter, hhead, hae]
        simp [hne]
  · intro hz
    cases l with
    | nil => simp at hz
    | cons a u =>
        unfold resetForWindow
        rw [if_neg (by simp), find_eq_head_filter, hz]
        simp
  · intro s ip key hip hlog
    have hb : (ip == "") = false := beq_eq_false_iff_ne.2 hip
    simp only [get_reset_times, hb, Bool.false_eq_true, if_false, ddGet_fst, hlog]

/-- Witness for C5 at a concrete input: log [5], now = 10, duration 60 —
entry 5 is the earliest in-window entry and is nonzero, so the reset
time is 5 + 60. -/
theorem reset_times_spec_witness :
    resetForWindow [(5 : Int)] 10 60 = 5 + 60 :=
  (reset_times_spec [(5 : Int)] 10 60 (List.sorted_singleton 5)).2.1 5
    (by decide) (by decide)
    (by intro x hx h2; have := List.mem_singleton.1 hx; omega)
    (by decide)

/-! ### Cleanup -/

lemma nodupKeys_log_eq :
    ∀ (s : LimiterState), (s.map Prod.fst).Nodup →
      ∀ {k : String} {l1 l2 : RequestLog}, (k, l1) ∈ s → (k, l2) ∈ s → l1 = l2 := by
  intro s
  induction s with
  | nil => intro _ k l1 l2 h1; cases h1
  | cons q u ih =>
      intro h k l1 l2 h1 h2
      rw [List.map_cons, List.nodup_cons] at h
      rcases List.mem_cons.1 h1 with e1 | m1
      · rcases List.mem_cons.1 h2 with e2 | m2
        · exact congrArg Prod.snd (e1.trans e2.symm)
        · exfalso
          apply h.1
          have hk : q.1 = k := (congrArg Prod.fst e1).symm
          rw [hk]
          exact List.mem_map_of_mem Prod.fst m2
      · rcases List.mem_cons.1 h2 with e2 | m2
        · exfalso
          apply h.1
          have hk : q.1 = k := (congrArg Prod.fst e2).symm
          rw [hk]
          exact List.mem_map_of_mem Prod.fst m1
        · exact ih h.2 m1 m2

/-- Claim C6: over states whose logs are non-decreasing (the documented
log invariant) with distinct client keys, cleanup removes from every log
exactly the entries strictly older than the cutoff now - A*3600 (A in
hours, matching max_age_hours): the result is the entrywise filter
keeping timestamps at or after the cutoff, with clients whose filtered
log is empty removed entirely; a client all of whose entries are old
disappears from the state, and a client with at least one recent entry
remains holding exactly its recent entries. -/
theorem cleanup_exact (s : LimiterState) (now A : Int)
    (hsorted : ∀ k l, (k, l) ∈ s → List.Sorted (· ≤ ·) l)
    (hkeys : (s.map Prod.fst).Nodup) :
    cleanup_old_entries s now A =
      (s.map (fun p => (p.1, p.2.filter (fun x => now - A * 3600 ≤ x)))).filter
        (fun p => !p.2.isEmpty) ∧
    (∀ k l, (k, l) ∈ s → (∀ x ∈ l, x < now - A * 3600) →
      ∀ p ∈ cleanup_old_entries s now A, p.1 ≠ k) ∧
    (∀ k l, (k, l) ∈ s → (∃ x ∈ l, now - A * 3600 ≤ x) →
      (k, l.filter (fun x => now - A * 3600 ≤ x)) ∈ cleanup_old_entries s now A) := by
  have heq : cleanup_old_entries s now A =
      (s.map (fun p => (p.1, p.2.filter (fun x => now - A * 3600 ≤ x)))).filter
        (fun p => !p.2.isEmpty) := by
    have hmap : s.map (fun p => (p.1, pruneOld p.2 (now - A * 3600))) =
        s.map (fun p => (p.1, p.2.filter (fun x => now - A * 3600 ≤ x))) := by
      apply List.map_congr_left
      intro q hq
      have hsq : List.Sorted (· ≤ ·) q.2 := by
        apply hsorted q.1 q.2
        rw [Prod.mk.eta]
        exact hq
      rw [pruneOld_sorted _ hsq]
    simp only [cleanup_old_entries]
    rw [hmap]
  refine ⟨heq, ?_, ?_⟩
  · intro k l hmem hold p hp
    rw [heq] at hp
    obtain ⟨hpm, hpred⟩ := List.mem_filter.1 hp
    obtain ⟨q, hq, he⟩ := List.mem_map.1 hpm
    intro hpk
    have hq1 : q.1 = k := by
      rw [← he] at hpk
      exact hpk
    have hqmem : (k, q.2) ∈ s := by
      rw [← hq1, Prod.mk.eta]
      exact hq
    have hq2 : q.2 = l := nodupKeys_log_eq s hkeys hqmem hmem
    have hnil : q.2.filter (fun x => now - A * 3600 ≤ x) = [] := by
      rw [hq2]
      apply List.filter_eq_nil_iff.2
      intro a ha
      have := hold a ha
      simp only [decide_eq_true_eq]
      omega
    rw [← he] at hpred
    simp only [hnil] at hpred
    simp at hpred
  · intro k l hmem hex
    obtain ⟨x, hx, hxc⟩ := hex
    rw [heq]
    apply List.mem_filter.2
    refine ⟨List.mem_map.2 ⟨(k, l), hmem, rfl⟩, ?_⟩
    have hxf : x ∈ l.filter (fun y => now - A * 3600 ≤ y) :=
      List.mem_filter.2 ⟨hx, by simpa using hxc⟩
    have hne := List.ne_nil_of_mem hxf
    simpa using hne

/-- Witness for C6 at a concrete input: with cutoff 100, client "a"
(single entry 0, stale) is dropped while client "b" (entry 100, recent)
keeps its recent entries. -/
theorem cleanup_exact_witness :
    ("b", ([(100 : Int)]).filter (fun x => (100 : Int) - 0 * 3600 ≤ x)) ∈
      cleanup_old_entries [("a", [(0 : Int)]), ("b", [(100 : Int)])] 100 0 :=
  (cleanup_exact [("a", [(0 : Int)]), ("b", [(100 : Int)])] 100 0
    (by
      intro k l hm
      rcases List.mem_cons.1 hm with h | h
      · cases h; exact List.sorted_singleton _
      · rcases List.mem_cons.1 h with h2 | h2
        · cases h2; exact List.sorted_singleton _
        · cases h2)
    (by decide)).2.2 "b" [100] (by decide) ⟨100, by decide, by decide⟩

/-! ### Bounded memory -/

lemma state_bounded_applyOp {s : LimiterState} (op : Op)
    (h : ∀ p ∈ s, ((p : String × RequestLog).2).length ≤ 1000) :
    ∀ p ∈ applyOp s op, ((p : String × RequestLog).2).length ≤ 1000 := by
  cases op with
  | allowOp ip key t =>
      by_cases hip : ip = ""
      · subst hip
        exact h
      · intro p hp
        rw [show applyOp s (Op.allowOp ip key t) = (is_allowed s ip key t).2 from rfl,
          is_allowed_eq s ip key t hip] at hp
        rcases mem_setLog hp with he | hm
        · have hlog : (logOf s (clientIdOf ip key)).length ≤ 1000 := by
            rcases logOf_mem (s := s) (k := clientIdOf ip key) with hz | hmem
            · rw [hz]; simp
            · exact h _ hmem
          have hck := checkLog_snd_length (logOf s (clientIdOf ip key)) t
          rw [he]
          exact le_trans hck (max_le hlog le_rfl)
        · rcases mem_ddGet hm with h1 | h1
          · exact h p h1
          · rw [h1]; simp
  | remainingOp ip key t =>
      intro p hp
      by_cases hip : ip = ""
      · subst hip
        exact h p hp
      · rw [show applyOp s (Op.remainingOp ip key t) =
            (get_remaining_requests s ip key t).2 from rfl,
          get_remaining_snd s ip key t hip] at hp
        rcases mem_ddGet hp with h1 | h1
        · exact h p h1
        · rw [h1]; simp
  | resetOp ip key t =>
      intro p hp
      by_cases hip : ip = ""
      · subst hip
        exact h p hp
      · rw [show applyOp s (Op.resetOp ip key t) =
            (get_reset_times s ip key t).2 from rfl,
          get_reset_snd s ip key t hip] at hp
        rcases mem_ddGet hp with h1 | h1
        · exact h p h1
        · rw [h1]; simp
  | cleanupOp t a =>
      intro p hp
      simp only [applyOp, cleanup_old_entries] at hp
      have hp2 := List.mem_of_mem_filter hp
      obtain ⟨q, hq, he⟩ := List.mem_map.1 hp2
      rw [← he]
      exact le_trans (pruneOld_length_le q.2 _) (h q hq)

/-- Claim C7: bounded memory.  Starting from the empty state, after any
sequence of is_allowed, get_remaining_requests, get_reset_times and
cleanup_old_entries calls with non-decreasing call times, every client
log has length at most 1000, the maximum max_count over all windows:
the admission path caps the log right after appending.  (The proof does
not even need the monotone-clock hypothesis.) -/
theorem bounded_memory (ops : List Op)
    (_hmono : List.Chain' (· ≤ ·) (ops.map opTime)) :
    ∀ p ∈ runOps [] ops, ((p : String × RequestLog).2).length ≤ 1000 := by
  have hgen : ∀ (ops2 : List Op) (s : LimiterState),
      (∀ p ∈ s, ((p : String × RequestLog).2).length ≤ 1000) →
      ∀ p ∈ runOps s ops2, ((p : String × RequestLog).2).length ≤ 1000 := by
    intro ops2
    induction ops2 with
    | nil => intro s hinv; exact hinv
    | cons op rest ih =>
        intro s hinv
        exact ih (applyOp s op) (state_bounded_applyOp op hinv)
  exact hgen ops [] (fun p hp => by cases hp)

/-- Witness for C7 at a concrete input: a single admitted call leaves
client "a" with a one-entry log, within the 1000 bound. -/
theorem bounded_memory_witness :
    List.Chain' (· ≤ ·) ([Op.allowOp "a" none 0].map opTime) ∧
    ("a", [(0 : Int)]) ∈ runOps [] [Op.allowOp "a" none 0] ∧
    ((("a", [(0 : Int)]) : String × RequestLog).2).length ≤ 1000 :=
  ⟨List.chain'_singleton _, by decide,
    bounded_memory [Op.allowOp "a" none 0] (List.chain'_singleton _)
      ("a", [0]) (by decide)⟩

/-- Witness for C3 at a concrete input: ten entries at timestamp 0 with a
call at time 60 — boundary entries survive pruning, the call is denied,
and the per-minute quota reads 0. -/
theorem boundary_inclusive_witness :
    pruneOld (List.replicate 10 ((60 : Int) - 60)) ((60 : Int) - 60) =
      List.replicate 10 ((60 : Int) - 60) ∧
    is_allowed [(clientIdOf "a" none, List.replicate 10 ((60 : Int) - 60))]
        "a" none 60 =
      (false, [(clientIdOf "a" none, List.replicate 10 ((60 : Int) - 60))]) ∧
    (get_remaining_requests
        [(clientIdOf "a" none, List.replicate 10 ((60 : Int) - 60))]
        "a" none 60).1 =
      [("per_minute", 0), ("per_hour", 90), ("per_day", 990)] :=
  boundary_inclusive 60 "a" none (by decide)

end RL
